import Mathlib

/-!
Shallow embedding of the stdVBA documentation viewer (src/src/App.tsx):
the JSON-to-view data normalizer (`fetchDocumentation`), the URL
deep-link resolver (the `q` parameter effect), the sidebar navigation,
the dev/user mode member filters of `renderContent`, and the
"On This Page" outline (`OnThisPagePanel`).

JavaScript values that may be `undefined` are modelled with `Option`;
the JS `x || d` defaulting idiom is modelled by `Option.getD` (for the
value shapes that occur here — arrays and objects are always truthy,
an absent or empty string defaults to the same result, and
`false || false = false` — the two coincide).
-/

namespace StdVbaDocs

/-- Deprecation marker: `{ status: boolean; message: string }` from `IMember`. -/
structure Deprecation where
  status : Bool
  message : String
  deriving Repr, DecidableEq

/-- Model of `IParam` (App.tsx lines 31-38); optional fields stay optional after
normalization because parameter objects are passed through unchanged. -/
structure IParam where
  name : String
  type : String
  description : Option String := none
  optional : Option Bool := none
  defaultValue : Option String := none
  paramArray : Option Bool := none
  deriving Repr, DecidableEq

/-- Model of `IReturn` (App.tsx lines 40-43). -/
structure IReturn where
  type : String
  description : Option String := none
  deriving Repr, DecidableEq

/-- Model of `IThrow` (App.tsx lines 45-48). -/
structure IThrow where
  errNumber : Int
  errText : String
  deriving Repr, DecidableEq

/-- The common member shape (`IMember`, App.tsx lines 18-29, extending
`IBaseItem`); also the shape of a raw member record in the JSON payload
(the code reads these same fields off the untyped `any` values). -/
structure IMember where
  name : String
  description : Option String := none
  remarks : Option (List String) := none
  examples : Option (List String) := none
  devNotes : Option (List String) := none
  todos : Option (List String) := none
  requires : Option (List String) := none
  params : Option (List IParam) := none
  returns : Option IReturn := none
  throws : Option (List IThrow) := none
  isStatic : Option Bool := none
  isProtected : Option Bool := none
  isDefaultMember : Option Bool := none
  deprecation : Option Deprecation := none
  deriving Repr, DecidableEq

/-- A raw member record of the payload: the member fields plus the
`access` field read for properties (`prop.access || 'ReadWrite'`). -/
structure RawMember extends IMember where
  access : Option String := none
  deriving Repr, DecidableEq

/-- Model of `IProperty` (App.tsx lines 50-52): a member plus its access mode. -/
structure IProperty extends IMember where
  access : String
  deriving Repr, DecidableEq

/-- Model of `IEvent` (App.tsx lines 58-61): `IBaseItem` plus params and isProtected. -/
structure IEvent where
  name : String
  description : Option String := none
  remarks : Option (List String) := none
  examples : Option (List String) := none
  devNotes : Option (List String) := none
  todos : Option (List String) := none
  requires : Option (List String) := none
  params : Option (List IParam) := none
  isProtected : Option Bool := none
  deriving Repr, DecidableEq

/-- Model of `IClass` (App.tsx lines 65-72). -/
structure IClass where
  name : String
  fileName : Option String := none
  description : Option String := none
  remarks : Option (List String) := none
  examples : Option (List String) := none
  devNotes : Option (List String) := none
  todos : Option (List String) := none
  requires : Option (List String) := none
  implements : Option (List String) := none
  constructors : List IMember := []
  properties : List IProperty := []
  methods : List IMember := []
  events : List IEvent := []
  deriving Repr, DecidableEq

/-- Model of `IModule` (App.tsx lines 74-77). -/
structure IModule where
  name : String
  fileName : Option String := none
  description : Option String := none
  remarks : Option (List String) := none
  examples : Option (List String) := none
  devNotes : Option (List String) := none
  todos : Option (List String) := none
  requires : Option (List String) := none
  functions : List IMember := []
  deriving Repr, DecidableEq

/-- Model of `IData` (App.tsx lines 79-82). -/
structure IData where
  classes : List IClass := []
  modules : List IModule := []
  deriving Repr, DecidableEq

/-- One element of the raw JSON array fetched by `fetchDocumentation`.
Fields the normalizer reads, each possibly absent; the `functions` field
can occur in a payload but is never read by the normalizer. -/
structure RawItem where
  name : String
  fileName : Option String := none
  description : Option String := none
  remarks : Option (List String) := none
  examples : Option (List String) := none
  devNotes : Option (List String) := none
  todos : Option (List String) := none
  requires : Option (List String) := none
  implements : Option (List String) := none
  constructors : Option (List RawMember) := none
  properties : Option (List RawMember) := none
  methods : Option (List RawMember) := none
  events : Option (List RawMember) := none
  functions : Option (List RawMember) := none
  deriving Repr, DecidableEq

/-- The default returns descriptor `{ type: 'Variant', description: '' }`. -/
def defaultReturns : IReturn := { type := "Variant", description := some "" }

/-- The default deprecation marker `{ status: false, message: '' }`. -/
def defaultDeprecation : Deprecation := { status := false, message := "" }

/-- Normalization of one constructor record (App.tsx lines 747-763). -/
def normalizeConstructor (ctor : RawMember) : IMember :=
  { name := ctor.name
    description := some (ctor.description.getD "")
    remarks := some (ctor.remarks.getD [])
    examples := some (ctor.examples.getD [])
    params := some (ctor.params.getD [])
    returns := some (ctor.returns.getD defaultReturns)
    devNotes := some (ctor.devNotes.getD [])
    todos := some (ctor.todos.getD [])
    throws := some (ctor.throws.getD [])
    requires := some (ctor.requires.getD [])
    isStatic := some (ctor.isStatic.getD false)
    isProtected := some (ctor.isProtected.getD false)
    isDefaultMember := some (ctor.isDefaultMember.getD false)
    deprecation := some (ctor.deprecation.getD defaultDeprecation) }

/-- Normalization of one property record (App.tsx lines 768-785). -/
def normalizeProperty (prop : RawMember) : IProperty :=
  { toIMember := normalizeConstructor prop
    access := prop.access.getD "ReadWrite" }

/-- Normalization of one method record (App.tsx lines 790-806); the code
fills exactly the same fields with the same defaults as for constructors. -/
def normalizeMethod (method : RawMember) : IMember :=
  normalizeConstructor method

/-- Normalization of one event record (App.tsx lines 811-822). -/
def normalizeEvent (event : RawMember) : IEvent :=
  { name := event.name
    description := some (event.description.getD "")
    remarks := some (event.remarks.getD [])
    examples := some (event.examples.getD [])
    params := some (event.params.getD [])
    devNotes := some (event.devNotes.getD [])
    todos := some (event.todos.getD [])
    requires := some (event.requires.getD [])
    isProtected := some (event.isProtected.getD false) }

/-- Normalization of one module function record (App.tsx lines 840-856);
read off the raw item's `methods` list, same fields as methods. -/
def normalizeFunction (func : RawMember) : IMember :=
  normalizeConstructor func

/-- The class/module discriminator (App.tsx line 727):
`item.constructors !== undefined || item.events !== undefined`. -/
def isClassItem (item : RawItem) : Bool :=
  item.constructors.isSome || item.events.isSome

/-- Normalization of a raw item into a class (App.tsx lines 730-825).
An absent member list contributes nothing (the `Array.isArray` guard),
identically to defaulting it to `[]` and mapping. -/
def normalizeClass (item : RawItem) : IClass :=
  { name := item.name
    fileName := some (item.fileName.getD "")
    description := some (item.description.getD "")
    remarks := some (item.remarks.getD [])
    examples := some (item.examples.getD [])
    devNotes := some (item.devNotes.getD [])
    todos := some (item.todos.getD [])
    requires := some (item.requires.getD [])
    implements := some (item.implements.getD [])
    constructors := (item.constructors.getD []).map normalizeConstructor
    properties := (item.properties.getD []).map normalizeProperty
    methods := (item.methods.getD []).map normalizeMethod
    events := (item.events.getD []).map normalizeEvent }

/-- Normalization of a raw item into a module (App.tsx lines 827-859):
the module's `functions` list is built from the raw item's `methods`
field; a raw `functions` field is never read. -/
def normalizeModule (item : RawItem) : IModule :=
  { name := item.name
    fileName := some (item.fileName.getD "")
    description := some (item.description.getD "")
    remarks := some (item.remarks.getD [])
    examples := some (item.examples.getD [])
    devNotes := some (item.devNotes.getD [])
    todos := some (item.todos.getD [])
    requires := some (item.requires.getD [])
    functions := (item.methods.getD []).map normalizeFunction }

/-- The normalization loop of `fetchDocumentation` (App.tsx lines 725-862):
each element is classified by `isClassItem` and pushed onto the classes
or the modules list, preserving order. -/
def normalizeData : List RawItem → IData
  | [] => { classes := [], modules := [] }
  | item :: rest =>
    let d := normalizeData rest
    if isClassItem item then
      { classes := normalizeClass item :: d.classes, modules := d.modules }
    else
      { classes := d.classes, modules := normalizeModule item :: d.modules }

/-! ## The fetch effect (App.tsx lines 712-872) -/

/-- The state touched by the fetch effect: document, error, loading. -/
structure FetchState where
  data : IData
  error : Option String
  loading : Bool
  deriving Repr, DecidableEq

/-- The state before the one-shot fetch effect:
`data = {classes: [], modules: []}`, `error = null`, `loading = true`. -/
def initialFetchState : FetchState :=
  { data := { classes := [], modules := [] }, error := none, loading := true }

/-- The error message set in the catch block (App.tsx line 866). -/
def fetchErrorMessage : String :=
  "Failed to load documentation. Please try again later. Check console for details."

/-- Outcome of the network round trip: `.ok (some items)` is a JSON array,
`.ok none` is valid JSON that is not an array (the `Array.isArray` guard
fails and both lists stay empty), `.error` covers a network failure, a
non-OK HTTP status (thrown at line 717) and a JSON parse failure. -/
def FetchOutcome := Except String (Option (List RawItem))

/-- The single run of `fetchDocumentation` (App.tsx lines 712-872): on
success the normalized document is stored; on any failure the document is
left untouched and the one error message is set; `loading` always ends
false (the `finally` block). The effect has an empty dependency list, so
this function is applied exactly once — there is no retry. -/
def fetchDocumentation (st : FetchState) (outcome : FetchOutcome) : FetchState :=
  match outcome with
  | .ok (some items) => { st with data := normalizeData items, loading := false }
  | .ok none => { st with data := { classes := [], modules := [] }, loading := false }
  | .error _ => { st with error := some fetchErrorMessage, loading := false }

/-! ## The URL deep-link resolver (App.tsx lines 650-689) -/

/-- The two selectable item kinds. -/
inductive ItemType where
  | classT
  | moduleT
  deriving Repr, DecidableEq

/-- The `selectedItem` state: `{ type: 'class' | 'module'; name: string }`. -/
structure Selection where
  type : ItemType
  name : String
  deriving Repr, DecidableEq

/-- Model of `String.prototype.split` with a one-character separator, on the
character list of the string: splits at every occurrence, keeping empty
pieces, always returning at least one piece. -/
def jsSplitAux (sep : Char) : List Char → List (List Char)
  | [] => [[]]
  | c :: cs =>
    match jsSplitAux sep cs with
    | [] => [[]]
    | piece :: rest =>
      if c = sep then [] :: piece :: rest
      else (c :: piece) :: rest

/-- Model of `q.split('.')` (App.tsx line 654), for a single-character separator. -/
def jsSplit (s : String) (sep : Char) : List String :=
  (jsSplitAux sep s.data).map (fun cs => ⟨cs⟩)

/-- The URL-parameter effect (App.tsx lines 650-689) as a transition on the
`(selectedItem, highlightedMember)` pair. `q` is the raw query parameter
(`none` when absent). When `q` is truthy and the document is non-empty the
item name is looked up first among classes and, only when that fails,
among modules; a truthy member name sets the highlight. When nothing is
found neither state variable is written; when the guard fails the
highlight is reset to `null`. -/
def resolveQuery (classes : List IClass) (modules : List IModule)
    (q : Option String) (sel0 : Option Selection) (hm0 : Option String) :
    Option Selection × Option String :=
  match q with
  | none => (sel0, none)
  | some s =>
    if s ≠ "" ∧ classes.length + modules.length > 0 then
      let parts := jsSplit s '.'
      let itemName := parts.headD ""
      let memberName := parts[1]?
      match classes.find? (fun c => c.name == itemName) with
      | some cls =>
        (some { type := .classT, name := cls.name },
         match memberName with
         | some m => if m ≠ "" then some m else hm0
         | none => hm0)
      | none =>
        match modules.find? (fun m => m.name == itemName) with
        | some md =>
          (some { type := .moduleT, name := md.name },
           match memberName with
           | some m => if m ≠ "" then some m else hm0
           | none => hm0)
        | none => (sel0, hm0)
    else (sel0, none)

/-! ## Rendering (App.tsx lines 874-1085) and the member ids -/

/-- The JS `\s` whitespace class, restricted to the ASCII range that can
occur in member names. -/
def isJsWhitespace (c : Char) : Bool :=
  c = ' ' || c = '\t' || c = '\n' || c = '\x0d' || c = '\x0b' || c = '\x0c'

/-- Model of `name.replace(/\s+/g, '-')`: every maximal run of whitespace becomes
one dash. The boolean records whether the previous character was part of
a whitespace run already replaced. -/
def replaceWsAux : Bool → List Char → List Char
  | _, [] => []
  | inRun, c :: cs =>
    if isJsWhitespace c then
      if inRun then replaceWsAux true cs
      else '-' :: replaceWsAux true cs
    else c :: replaceWsAux false cs

/-- Model of `name.replace(/\s+/g, '-')` on the character list of the name. -/
def replaceWsRuns (l : List Char) : List Char :=
  replaceWsAux false l

/-- The DOM id given to a member's detail block:
`name.replace(/\s+/g, '-') + '-detail'`. -/
def memberId (name : String) : String :=
  (⟨replaceWsRuns name.data⟩ : String) ++ "-detail"

/-- One member block of the detail view, as much of it as the claims
inspect: its DOM id, the member's name, whether the teal highlight border
is applied (`highlight={highlightedMember === name}`), and whether the
member is protected. -/
structure RenderedMember where
  id : String
  name : String
  highlight : Bool
  isProtected : Bool
  deriving Repr, DecidableEq

/-- Rendering of `MethodConstructorDetail` and `FunctionDetail` as seen by the claims. -/
def renderMember (hm : Option String) (m : IMember) : RenderedMember :=
  { id := memberId m.name, name := m.name,
    highlight := hm == some m.name, isProtected := m.isProtected.getD false }

/-- Rendering of `PropertyDetail` as seen by the claims. -/
def renderProperty (hm : Option String) (p : IProperty) : RenderedMember :=
  { id := memberId p.name, name := p.name,
    highlight := hm == some p.name, isProtected := p.isProtected.getD false }

/-- Rendering of `EventDetail` as seen by the claims. -/
def renderEvent (hm : Option String) (e : IEvent) : RenderedMember :=
  { id := memberId e.name, name := e.name,
    highlight := hm == some e.name, isProtected := e.isProtected.getD false }

/-- The member blocks of the class detail view in document order
(App.tsx lines 929-1016): the dev/user mode filter drops protected
members in user mode, then the Constructors, Properties, Methods and
Events sections are emitted. -/
def renderedClassMembers (cls : IClass) (devMode : Bool) (hm : Option String) :
    List RenderedMember :=
  let visibleConstructors :=
    if devMode then cls.constructors
    else cls.constructors.filter (fun c => !(c.isProtected.getD false))
  let visibleMethods :=
    if devMode then cls.methods
    else cls.methods.filter (fun m => !(m.isProtected.getD false))
  let visibleProperties :=
    if devMode then cls.properties
    else cls.properties.filter (fun p => !(p.isProtected.getD false))
  let visibleEvents :=
    if devMode then cls.events
    else cls.events.filter (fun e => !(e.isProtected.getD false))
  visibleConstructors.map (renderMember hm)
    ++ visibleProperties.map (renderProperty hm)
    ++ visibleMethods.map (renderMember hm)
    ++ visibleEvents.map (renderEvent hm)

/-- The member blocks of the module detail view (App.tsx lines 1057-1064):
every function is rendered, with no dev/user mode filter. -/
def renderedModuleFunctions (md : IModule) (hm : Option String) :
    List RenderedMember :=
  md.functions.map (renderMember hm)

/-- Model of `document.getElementById` over the rendered member blocks: the first
element whose id matches. -/
def getElementById (doc : List RenderedMember) (i : String) :
    Option RenderedMember :=
  doc.find? (fun m => m.id == i)

/-- The scroll target of the deep link (App.tsx lines 662-667):
`document.getElementById(memberName.replace(/\s+/g, '-') + '-detail')`. -/
def scrollTarget (doc : List RenderedMember) (memberName : String) :
    Option RenderedMember :=
  getElementById doc (memberId memberName)

/-- What `renderContent` (App.tsx lines 874-1085) renders, as far as the
claims inspect it. -/
inductive View where
  | loadingView
  | errorView (msg : String)
  | welcome
  | classNotFound
  | classDetail (members : List RenderedMember)
  | moduleNotFound
  | moduleDetail (functions : List RenderedMember)
  deriving Repr, DecidableEq

/-- Model of `renderContent` (App.tsx lines 874-1085): loading first, then error,
then the welcome view when nothing is selected, then the class or module
detail view (or its inline not-found message). -/
def renderContent (loading : Bool) (error : Option String)
    (sel : Option Selection) (d : IData) (devMode : Bool)
    (hm : Option String) : View :=
  if loading then .loadingView
  else
    match error with
    | some e => .errorView e
    | none =>
      match sel with
      | none => .welcome
      | some s =>
        match s.type with
        | .classT =>
          match d.classes.find? (fun c => c.name == s.name) with
          | none => .classNotFound
          | some cls => .classDetail (renderedClassMembers cls devMode hm)
        | .moduleT =>
          match d.modules.find? (fun m => m.name == s.name) with
          | none => .moduleNotFound
          | some md => .moduleDetail (renderedModuleFunctions md hm)

/-! ## The sidebar (App.tsx lines 1112-1150) -/

/-- Lexicographic comparison of two character lists by code point. -/
def charListLe : List Char → List Char → Bool
  | [], _ => true
  | _ :: _, [] => false
  | a :: as, b :: bs =>
    if a.toNat < b.toNat then true
    else if b.toNat < a.toNat then false
    else charListLe as bs

/-- The ordering used by the sidebar sort,
`(a, b) => a.name.localeCompare(b.name)`, modelled as the lexicographic
order on names by code point. -/
def nameLe (a b : String) : Bool := charListLe a.data b.data

/-- Insert an element into a list sorted by the key, before the first
element whose key is not smaller. -/
def insertByKey {α : Type} (key : α → String) (x : α) : List α → List α
  | [] => [x]
  | y :: ys =>
    if nameLe (key x) (key y) then x :: y :: ys else y :: insertByKey key x ys

/-- Model of `slice().sort((a, b) => a.name.localeCompare(b.name))`: a stable
comparison sort by name, modelled (as any comparison sort may be) by
insertion sort; `localeCompare` is modelled by the lexicographic order. -/
def sortByKey {α : Type} (key : α → String) : List α → List α
  | [] => []
  | x :: xs => insertByKey key x (sortByKey key xs)

/-- The class names of the sidebar, in rendered order
(App.tsx line 1115). -/
def sidebarClassNames (d : IData) : List String :=
  (sortByKey (fun c => c.name) d.classes).map (fun c => c.name)

/-- The module names of the sidebar, in rendered order
(App.tsx line 1135). -/
def sidebarModuleNames (d : IData) : List String :=
  (sortByKey (fun m => m.name) d.modules).map (fun m => m.name)

/-! ## The "On This Page" outline (App.tsx lines 461-606) -/

/-- One entry of the outline's `members` array: either a section header or
a member entry carrying the member record it was pushed with (function
entries are pushed without a member record, only a name). -/
inductive PageEntry where
  | header (name : String) (id : String)
  | constructorE (m : IMember)
  | propertyE (p : IProperty)
  | methodE (m : IMember)
  | eventE (e : IEvent)
  | functionE (name : String)
  deriving Repr, DecidableEq

/-- Model of `isProtectedMember` (App.tsx lines 495-500): only constructor, method,
property and event entries can be protected; headers and functions never. -/
def isProtectedEntry : PageEntry → Bool
  | .constructorE m => m.isProtected.getD false
  | .propertyE p => p.isProtected.getD false
  | .methodE m => m.isProtected.getD false
  | .eventE e => e.isProtected.getD false
  | _ => false

/-- Whether an outline entry is a member entry (not a header). -/
def isMemberEntry : PageEntry → Bool
  | .header _ _ => false
  | _ => true

/-- The name of an outline entry. -/
def entryName : PageEntry → String
  | .header n _ => n
  | .constructorE m => m.name
  | .propertyE p => p.name
  | .methodE m => m.name
  | .eventE e => e.name
  | .functionE n => n

/-- The `members` array built by `OnThisPagePanel` (App.tsx lines 492-536)
for a selected class: each section's header is pushed when the unfiltered
list is non-empty, then the entries, filtered by protectedness in user
mode. -/
def onThisPageClass (cls : IClass) (devMode : Bool) : List PageEntry :=
  (if cls.constructors.length > 0 then
    PageEntry.header "Constructors" "constructors-section"
      :: ((if devMode then cls.constructors
           else cls.constructors.filter (fun c => !(c.isProtected.getD false))).map
            (fun m => PageEntry.constructorE m))
   else [])
  ++ (if cls.properties.length > 0 then
    PageEntry.header "Properties" "properties-section"
      :: ((if devMode then cls.properties
           else cls.properties.filter (fun p => !(p.isProtected.getD false))).map
            (fun p => PageEntry.propertyE p))
   else [])
  ++ (if cls.methods.length > 0 then
    PageEntry.header "Methods" "methods-section"
      :: ((if devMode then cls.methods
           else cls.methods.filter (fun m => !(m.isProtected.getD false))).map
            (fun m => PageEntry.methodE m))
   else [])
  ++ (if cls.events.length > 0 then
    PageEntry.header "Events" "events-section"
      :: ((if devMode then cls.events
           else cls.events.filter (fun e => !(e.isProtected.getD false))).map
            (fun e => PageEntry.eventE e))
   else [])

/-- The `members` array built by `OnThisPagePanel` (App.tsx lines 532-536)
for a selected module: the Functions header and every function, with no
dev/user mode filter. -/
def onThisPageModule (md : IModule) : List PageEntry :=
  if md.functions.length > 0 then
    PageEntry.header "Functions" "functions-section"
      :: (md.functions.map (fun f => PageEntry.functionE f.name))
  else []

/-! ## Definedness predicates for the normalized document -/

/-- Every optional field of a normalized member is defined. -/
def memberAllDefined (m : IMember) : Bool :=
  m.description.isSome && m.remarks.isSome && m.examples.isSome &&
  m.devNotes.isSome && m.todos.isSome && m.requires.isSome &&
  m.params.isSome && m.returns.isSome && m.throws.isSome &&
  m.isStatic.isSome && m.isProtected.isSome && m.isDefaultMember.isSome &&
  m.deprecation.isSome

/-- Every optional field of a normalized event is defined. -/
def eventAllDefined (e : IEvent) : Bool :=
  e.description.isSome && e.remarks.isSome && e.examples.isSome &&
  e.devNotes.isSome && e.todos.isSome && e.requires.isSome &&
  e.params.isSome && e.isProtected.isSome

/-- Every optional field of a normalized class, and of each of its
members, is defined. -/
def classAllDefined (c : IClass) : Bool :=
  c.fileName.isSome && c.description.isSome && c.remarks.isSome &&
  c.examples.isSome && c.devNotes.isSome && c.todos.isSome &&
  c.requires.isSome && c.implements.isSome &&
  c.constructors.all memberAllDefined &&
  c.properties.all (fun p => memberAllDefined p.toIMember) &&
  c.methods.all memberAllDefined &&
  c.events.all eventAllDefined

/-- Every optional field of a normalized module, and of each of its
functions, is defined. -/
def moduleAllDefined (m : IModule) : Bool :=
  m.fileName.isSome && m.description.isSome && m.remarks.isSome &&
  m.examples.isSome && m.devNotes.isSome && m.todos.isSome &&
  m.requires.isSome && m.functions.all memberAllDefined

/-! ## Helper lemmas -/

theorem charListLe_total : ∀ (a b : List Char), charListLe a b = true ∨ charListLe b a = true
  | [], _ => Or.inl rfl
  | _ :: _, [] => Or.inr rfl
  | a :: as, b :: bs => by
    rcases Nat.lt_trichotomy a.toNat b.toNat with h | h | h
    · left
      simp [charListLe, h]
    · have h1 : ¬ a.toNat < b.toNat := by omega
      have h2 : ¬ b.toNat < a.toNat := by omega
      simp only [charListLe, if_neg h1, if_neg h2]
      exact charListLe_total as bs
    · right
      simp [charListLe, h]

theorem charListLe_trans : ∀ (a b c : List Char),
    charListLe a b = true → charListLe b c = true → charListLe a c = true
  | [], _, _, _, _ => rfl
  | _ :: _, [], _, hab, _ => by simp [charListLe] at hab
  | _ :: _, _ :: _, [], _, hbc => by simp [charListLe] at hbc
  | a :: as, b :: bs, c :: cs, hab, hbc => by
    simp only [charListLe] at hab hbc ⊢
    by_cases h1 : a.toNat < b.toNat
    · by_cases h2 : b.toNat < c.toNat
      · have hac : a.toNat < c.toNat := by omega
        simp [hac]
      · by_cases h4 : c.toNat < b.toNat
        · rw [if_neg h2, if_pos h4] at hbc
          exact absurd hbc (by simp)
        · have hac : a.toNat < c.toNat := by omega
          simp [hac]
    · by_cases h3 : b.toNat < a.toNat
      · rw [if_neg h1, if_pos h3] at hab
        exact absurd hab (by simp)
      · rw [if_neg h1, if_neg h3] at hab
        by_cases h2 : b.toNat < c.toNat
        · have hac : a.toNat < c.toNat := by omega
          simp [hac]
        · by_cases h4 : c.toNat < b.toNat
          · rw [if_neg h2, if_pos h4] at hbc
            exact absurd hbc (by simp)
          · rw [if_neg h2, if_neg h4] at hbc
            have hac : ¬ a.toNat < c.toNat := by omega
            have hca : ¬ c.toNat < a.toNat := by omega
            rw [if_neg hac, if_neg hca]
            exact charListLe_trans as bs cs hab hbc

theorem nameLe_total (a b : String) : nameLe a b = true ∨ nameLe b a = true :=
  charListLe_total a.data b.data

theorem nameLe_trans {a b c : String} (h1 : nameLe a b = true) (h2 : nameLe b c = true) :
    nameLe a c = true :=
  charListLe_trans a.data b.data c.data h1 h2

theorem insertByKey_perm {α : Type} (key : α → String) (x : α) (l : List α) :
    (insertByKey key x l).Perm (x :: l) := by
  induction l with
  | nil => exact List.Perm.refl _
  | cons y ys ih =>
    simp only [insertByKey]
    split
    · exact List.Perm.refl _
    · exact (ih.cons y).trans (List.Perm.swap x y ys)

theorem sortByKey_perm {α : Type} (key : α → String) (l : List α) :
    (sortByKey key l).Perm l := by
  induction l with
  | nil => exact List.Perm.refl _
  | cons x xs ih => exact (insertByKey_perm key x _).trans (ih.cons x)

theorem pairwise_insertByKey {α : Type} (key : α → String) (x : α) (l : List α)
    (hl : l.Pairwise (fun a b => nameLe (key a) (key b) = true)) :
    (insertByKey key x l).Pairwise (fun a b => nameLe (key a) (key b) = true) := by
  induction l with
  | nil => simp [insertByKey]
  | cons y ys ih =>
    rcases List.pairwise_cons.mp hl with ⟨hy, hys⟩
    simp only [insertByKey]
    split
    case isTrue h =>
      refine List.pairwise_cons.mpr ⟨?_, hl⟩
      intro z hz
      rcases List.mem_cons.mp hz with rfl | hz'
      · exact h
      · exact nameLe_trans h (hy z hz')
    case isFalse h =>
      refine List.pairwise_cons.mpr ⟨?_, ih hys⟩
      intro z hz
      have hz' : z = x ∨ z ∈ ys := by
        have := (insertByKey_perm key x ys).mem_iff.mp hz
        simpa using this
      rcases hz' with rfl | hz'
      · rcases nameLe_total (key z) (key y) with hxy | hyx
        · exact absurd hxy h
        · exact hyx
      · exact hy z hz'

theorem pairwise_sortByKey {α : Type} (key : α → String) (l : List α) :
    (sortByKey key l).Pairwise (fun a b => nameLe (key a) (key b) = true) := by
  induction l with
  | nil => exact List.Pairwise.nil
  | cons x xs ih => exact pairwise_insertByKey key x _ ih

theorem normalizeData_classes_eq (items : List RawItem) :
    (normalizeData items).classes
      = (items.filter (fun i => i.constructors.isSome || i.events.isSome)).map
          normalizeClass := by
  induction items with
  | nil => rfl
  | cons item rest ih =>
    cases hc : item.constructors <;> cases he : item.events <;>
      simp [normalizeData, isClassItem, List.filter_cons, hc, he, ih]

theorem normalizeData_modules_eq (items : List RawItem) :
    (normalizeData items).modules
      = (items.filter (fun i => !(i.constructors.isSome || i.events.isSome))).map
          normalizeModule := by
  induction items with
  | nil => rfl
  | cons item rest ih =>
    cases hc : item.constructors <;> cases he : item.events <;>
      simp [normalizeData, isClassItem, List.filter_cons, hc, he, ih]

theorem memberAllDefined_normalizeConstructor (r : RawMember) :
    memberAllDefined (normalizeConstructor r) = true := by
  simp [memberAllDefined, normalizeConstructor]

theorem eventAllDefined_normalizeEvent (r : RawMember) :
    eventAllDefined (normalizeEvent r) = true := by
  simp [eventAllDefined, normalizeEvent]

theorem classAllDefined_normalizeClass (item : RawItem) :
    classAllDefined (normalizeClass item) = true := by
  simp only [classAllDefined, normalizeClass, Bool.and_eq_true, List.all_eq_true]
  refine ⟨⟨⟨⟨⟨⟨⟨⟨⟨⟨⟨rfl, rfl⟩, rfl⟩, rfl⟩, rfl⟩, rfl⟩, rfl⟩, rfl⟩, ?_⟩, ?_⟩, ?_⟩, ?_⟩
  · intro m hm
    rcases List.mem_map.mp hm with ⟨r, _, rfl⟩
    exact memberAllDefined_normalizeConstructor r
  · intro p hp
    rcases List.mem_map.mp hp with ⟨r, _, rfl⟩
    exact memberAllDefined_normalizeConstructor r
  · intro m hm
    rcases List.mem_map.mp hm with ⟨r, _, rfl⟩
    exact memberAllDefined_normalizeConstructor r
  · intro e he
    rcases List.mem_map.mp he with ⟨r, _, rfl⟩
    exact eventAllDefined_normalizeEvent r

theorem moduleAllDefined_normalizeModule (item : RawItem) :
    moduleAllDefined (normalizeModule item) = true := by
  simp only [moduleAllDefined, normalizeModule, Bool.and_eq_true, List.all_eq_true]
  refine ⟨⟨⟨⟨⟨⟨⟨rfl, rfl⟩, rfl⟩, rfl⟩, rfl⟩, rfl⟩, rfl⟩, ?_⟩
  intro f hf
  rcases List.mem_map.mp hf with ⟨r, _, rfl⟩
  exact memberAllDefined_normalizeConstructor r

theorem filter_idem {α : Type} (p : α → Bool) (l : List α) :
    (l.filter p).filter p = l.filter p := by
  induction l with
  | nil => rfl
  | cons x xs ih =>
    by_cases h : p x <;> simp [List.filter, h, ih]

theorem find?_first {α : Type} (p : α → Bool) (pre : List α) (tgt : α) (post : List α)
    (hpre : ∀ m ∈ pre, p m = false) (htgt : p tgt = true) :
    (pre ++ tgt :: post).find? p = some tgt := by
  induction pre with
  | nil => simp [List.find?, htgt]
  | cons a as ih =>
    have ha := hpre a (List.mem_cons_self a as)
    simp only [List.cons_append, List.find?, ha]
    exact ih (fun m hm => hpre m (List.mem_cons_of_mem a hm))

theorem visible_filter_eq {α β : Type} (dm : Bool) (l : List α) (p : α → Bool)
    (f : α → β) (q : β → Bool) (hfq : ∀ x, q (f x) = p x) :
    ((if dm then l else l.filter p).map f).filter q = (l.filter p).map f := by
  have hcomp : ∀ (l' : List α), (l'.map f).filter q = (l'.filter p).map f := by
    intro l'
    rw [List.filter_map]
    congr 1
    exact List.filter_congr (fun x _ => hfq x)
  cases dm
  · simp only [Bool.false_eq_true, if_false]
    rw [hcomp, filter_idem]
  · simp only [if_true]
    exact hcomp l

theorem renderedClassMembers_public (cls : IClass) (dm : Bool) (hm : Option String) :
    (renderedClassMembers cls dm hm).filter (fun m => !m.isProtected)
      = (cls.constructors.filter (fun c => !(c.isProtected.getD false))).map (renderMember hm)
        ++ (cls.properties.filter (fun p => !(p.isProtected.getD false))).map (renderProperty hm)
        ++ (cls.methods.filter (fun m => !(m.isProtected.getD false))).map (renderMember hm)
        ++ (cls.events.filter (fun e => !(e.isProtected.getD false))).map (renderEvent hm) := by
  simp only [renderedClassMembers, List.filter_append]
  rw [visible_filter_eq dm cls.constructors (fun c => !(c.isProtected.getD false))
      (renderMember hm) (fun m => !m.isProtected) (fun x => rfl),
    visible_filter_eq dm cls.properties (fun p => !(p.isProtected.getD false))
      (renderProperty hm) (fun m => !m.isProtected) (fun x => rfl),
    visible_filter_eq dm cls.methods (fun m => !(m.isProtected.getD false))
      (renderMember hm) (fun m => !m.isProtected) (fun x => rfl),
    visible_filter_eq dm cls.events (fun e => !(e.isProtected.getD false))
      (renderEvent hm) (fun m => !m.isProtected) (fun x => rfl)]

theorem section_public {α : Type} (dm : Bool) (l : List α) (p : α → Bool)
    (mk : α → PageEntry) (hname hid : String)
    (hq : ∀ x, (isMemberEntry (mk x) && !isProtectedEntry (mk x)) = p x) :
    ((if l.length > 0 then
        PageEntry.header hname hid :: ((if dm then l else l.filter p).map mk)
      else []).filter (fun e => isMemberEntry e && !isProtectedEntry e))
      = (l.filter p).map mk := by
  by_cases h : l.length > 0
  · rw [if_pos h, List.filter_cons]
    simp only [isMemberEntry, Bool.false_and, Bool.false_eq_true, if_false]
    exact visible_filter_eq dm l p mk _ hq
  · have hl : l = [] := List.eq_nil_of_length_eq_zero (by omega)
    subst hl
    simp

theorem onThisPageClass_public (cls : IClass) (dm : Bool) :
    (onThisPageClass cls dm).filter (fun e => isMemberEntry e && !isProtectedEntry e)
      = (cls.constructors.filter (fun c => !(c.isProtected.getD false))).map
          PageEntry.constructorE
        ++ (cls.properties.filter (fun p => !(p.isProtected.getD false))).map
            PageEntry.propertyE
        ++ (cls.methods.filter (fun m => !(m.isProtected.getD false))).map
            PageEntry.methodE
        ++ (cls.events.filter (fun e => !(e.isProtected.getD false))).map
            PageEntry.eventE := by
  simp only [onThisPageClass, List.filter_append]
  rw [section_public dm cls.constructors (fun c => !(c.isProtected.getD false))
      (fun m => PageEntry.constructorE m) "Constructors" "constructors-section" (fun x => rfl),
    section_public dm cls.properties (fun p => !(p.isProtected.getD false))
      (fun p => PageEntry.propertyE p) "Properties" "properties-section" (fun x => rfl),
    section_public dm cls.methods (fun m => !(m.isProtected.getD false))
      (fun m => PageEntry.methodE m) "Methods" "methods-section" (fun x => rfl),
    section_public dm cls.events (fun e => !(e.isProtected.getD false))
      (fun e => PageEntry.eventE e) "Events" "events-section" (fun x => rfl)]

/-! ## Concrete example data used by witnesses and counterexamples -/

/-- A concrete class named `Foo` with a member `Bar`. -/
def exClassFoo : IClass :=
  { name := "Foo", methods := [{ name := "Bar" }] }

/-- A concrete module named `Baz` with a protected function `Qux`. -/
def exModuleBaz : IModule :=
  { name := "Baz", functions := [{ name := "Qux", isProtected := some true }] }

/-- A concrete loaded document. -/
def exData : IData :=
  { classes := [exClassFoo], modules := [exModuleBaz] }

/-- A raw module-like record whose method `f` has a parameter carrying no
description. -/
def exRawParamItem : RawItem :=
  { name := "M",
    methods := some [{ name := "f",
                       params := some [{ name := "p", type := "Long" }] }] }

/-- A raw record carrying only a `functions` field (besides its name). -/
def exFunctionsOnlyItem : RawItem :=
  { name := "M2", functions := some [{ name := "g" }] }

/-- A concrete class holding two methods that share the name `Bar`. -/
def exDupClass : IClass :=
  { name := "Dup",
    methods := [{ name := "Bar" }, { name := "Bar", description := some "second" }] }

/-- A concrete document with out-of-order distinct names. -/
def exSidebarData : IData :=
  { classes := [{ name := "stdRegex" }, { name := "stdArray" }],
    modules := [{ name := "zMod" }, { name := "aMod" }] }

/-! ## Claims -/

/-- C2: an element of the raw JSON array is classified as a class exactly
when its `constructors` field or its `events` field is defined, and as a
module otherwise; the classification of each element depends only on its
own fields (in particular not on its name), since the classes and the
modules lists arise by filtering the input with that discriminator. -/
theorem classification_by_constructors_or_events (items : List RawItem) :
    (normalizeData items).classes
      = (items.filter (fun i => i.constructors.isSome || i.events.isSome)).map
          normalizeClass
    ∧ (normalizeData items).modules
      = (items.filter (fun i => !(i.constructors.isSome || i.events.isSome))).map
          normalizeModule :=
  ⟨normalizeData_classes_eq items, normalizeData_modules_eq items⟩

/-- C3 counterexample: the claim that no field of the normalized document
is undefined fails: parameter objects are passed through unchanged, so a
parameter that arrives without a `description` still has `description`
undefined after normalization. -/
theorem normalized_param_description_undefined :
    ∃ md ∈ (normalizeData [exRawParamItem]).modules, ∃ f ∈ md.functions,
      ∃ p ∈ f.params.getD [], p.description = none := by
  decide

/-- C3 (amended): every field directly assigned by the normalizer is
defined — missing list fields become `[]`, missing string fields `""`,
missing flags `false`, a missing `returns` becomes
`{type: 'Variant', description: ''}` and a missing `deprecation`
`{status: false, message: ''}` — for every item and every member of the
normalized document; the elements of the `params` and `throws` lists,
and a present `returns` object, are passed through unchanged, so
optional fields inside them may remain undefined. -/
theorem normalized_document_fields_defined (items : List RawItem) :
    (∀ cls ∈ (normalizeData items).classes, classAllDefined cls = true)
    ∧ (∀ md ∈ (normalizeData items).modules, moduleAllDefined md = true)
    ∧ (∀ n : String, normalizeConstructor { name := n }
        = { name := n, description := some "", remarks := some [],
            examples := some [], devNotes := some [], todos := some [],
            requires := some [], params := some [],
            returns := some defaultReturns, throws := some [],
            isStatic := some false, isProtected := some false,
            isDefaultMember := some false,
            deprecation := some defaultDeprecation })
    ∧ (∀ r : RawMember, (normalizeConstructor r).params = some (r.params.getD [])
        ∧ (normalizeConstructor r).throws = some (r.throws.getD [])
        ∧ (normalizeConstructor r).returns = some (r.returns.getD defaultReturns)) := by
  refine ⟨?_, ?_, fun n => rfl, fun r => ⟨rfl, rfl, rfl⟩⟩
  · intro cls hcls
    rw [normalizeData_classes_eq] at hcls
    rcases List.mem_map.mp hcls with ⟨item, _, rfl⟩
    exact classAllDefined_normalizeClass item
  · intro md hmd
    rw [normalizeData_modules_eq] at hmd
    rcases List.mem_map.mp hmd with ⟨item, _, rfl⟩
    exact moduleAllDefined_normalizeModule item

/-- C3 witness: the amended theorem applied to the concrete one-item
payload. -/
theorem normalized_document_fields_defined_witness :
    moduleAllDefined (normalizeModule exRawParamItem) = true :=
  (normalized_document_fields_defined [exRawParamItem]).2.1
    (normalizeModule exRawParamItem) (by decide)

/-- C7: when the one-shot fetch fails (network error, non-OK status, or
JSON parse failure), the single error message is set, the in-memory
document is left untouched — in particular it stays empty when the
failure hits the initial state — and `loading` ends false; the effect
runs once, so this transition is the whole story: no retry. -/
theorem fetch_fail_closed (st : FetchState) (msg : String) :
    fetchDocumentation st (.error msg)
      = { data := st.data, error := some fetchErrorMessage, loading := false }
    ∧ fetchDocumentation initialFetchState (.error msg)
      = { data := { classes := [], modules := [] },
          error := some fetchErrorMessage, loading := false } :=
  ⟨rfl, rfl⟩

/-- C9: a module's `functions` list is built from the raw record's
`methods` field in order; a raw `functions` field is never read, so a
record carrying only a `functions` field normalizes to a module whose
functions list is empty. -/
theorem module_functions_ignore_functions_field (item : RawItem)
    (fns : Option (List RawMember)) :
    normalizeModule { item with functions := fns } = normalizeModule item
    ∧ (normalizeModule item).functions
        = (item.methods.getD []).map normalizeFunction
    ∧ (item.methods = none → (normalizeModule item).functions = []) := by
  refine ⟨rfl, rfl, fun h => ?_⟩
  rw [normalizeModule, h]
  rfl

/-- C9 witness: the record with only a `functions` field yields an empty
functions list. -/
theorem module_functions_ignore_functions_field_witness :
    (normalizeModule exFunctionsOnlyItem).functions = [] :=
  (module_functions_ignore_functions_field exFunctionsOnlyItem none).2.2 rfl

/-- C10: the module detail view is independent of dev/user mode and
renders every function of the selected module, protected ones included;
the outline lists every function of a module regardless of mode, unlike
class members, which are filtered in user mode. -/
theorem module_functions_unfiltered (d : IData) (n : String) (hm : Option String)
    (dm dm' : Bool) :
    renderContent false none (some { type := .moduleT, name := n }) d dm hm
      = renderContent false none (some { type := .moduleT, name := n }) d dm' hm
    ∧ (∀ md, d.modules.find? (fun m => m.name == n) = some md →
        renderContent false none (some { type := .moduleT, name := n }) d dm hm
          = .moduleDetail (md.functions.map (renderMember hm)))
    ∧ (∀ md : IModule, ∀ f ∈ md.functions,
        PageEntry.functionE f.name ∈ onThisPageModule md) := by
  refine ⟨rfl, fun md h => ?_, fun md f hf => ?_⟩
  · simp [renderContent, h, renderedModuleFunctions]
  · rw [onThisPageModule,
      if_pos (List.length_pos.mpr (List.ne_nil_of_mem hf))]
    exact List.mem_cons_of_mem _
      (List.mem_map_of_mem (fun g => PageEntry.functionE g.name) hf)

/-- C10 witness: the protected function `Qux` of module `Baz` is rendered
in both modes. -/
theorem module_functions_unfiltered_witness :
    renderContent false none (some { type := .moduleT, name := "Baz" })
        exData true (some "Qux")
      = .moduleDetail (exModuleBaz.functions.map (renderMember (some "Qux"))) :=
  (module_functions_unfiltered exData "Baz" (some "Qux") true false).2.1
    exModuleBaz (by decide)

theorem some_beq_some_eq (a b : String) : ((some a == some b) = true) ↔ a = b := by
  show ((a == b) = true) ↔ a = b
  exact beq_iff_eq

/-- C1: for a query parameter of the form `<itemName>.<memberName>` with
a non-empty member part, the item name is resolved against the classes
list first: when a class matches, the selection becomes that class and
the highlight the member name; only when no class matches is the modules
list consulted, and a matching module becomes the selection with the
same highlight. -/
theorem query_resolution_class_first (classes : List IClass) (modules : List IModule)
    (q itemName memberName : String)
    (hsplit : jsSplit q '.' = [itemName, memberName])
    (hmn : memberName ≠ "") :
    (∀ cls, classes.find? (fun c => c.name == itemName) = some cls →
      resolveQuery classes modules (some q) none none
        = (some { type := .classT, name := cls.name }, some memberName))
    ∧ (classes.find? (fun c => c.name == itemName) = none →
      ∀ md, modules.find? (fun m => m.name == itemName) = some md →
        resolveQuery classes modules (some q) none none
          = (some { type := .moduleT, name := md.name }, some memberName)) := by
  have hq0 : ¬ (q = "") := by
    intro h
    subst h
    rw [show jsSplit "" '.' = [""] from rfl] at hsplit
    simp at hsplit
  constructor
  · intro cls hfind
    have hmem := List.mem_of_find?_eq_some hfind
    have hlen : classes.length + modules.length > 0 := by
      have := List.length_pos.mpr (List.ne_nil_of_mem hmem)
      omega
    simp only [resolveQuery]
    rw [if_pos ⟨hq0, hlen⟩]
    simp [hsplit, hfind, hmn]
  · intro hnone md hfind
    have hmem := List.mem_of_find?_eq_some hfind
    have hlen : classes.length + modules.length > 0 := by
      have := List.length_pos.mpr (List.ne_nil_of_mem hmem)
      omega
    simp only [resolveQuery]
    rw [if_pos ⟨hq0, hlen⟩]
    simp [hsplit, hnone, hfind, hmn]

/-- C1 witness: `q=Foo.Bar` with class `Foo` present selects `Foo` and
highlights `Bar`. -/
theorem query_resolution_class_first_witness :
    resolveQuery [exClassFoo] [exModuleBaz] (some "Foo.Bar") none none
      = (some { type := .classT, name := "Foo" }, some "Bar") :=
  (query_resolution_class_first [exClassFoo] [exModuleBaz] "Foo.Bar" "Foo" "Bar"
    (by decide) (by decide)).1 exClassFoo (by decide)

/-- C6: when the item-name part of the query matches no class and no
module, neither state variable is written — the selection stays `null` —
and `renderContent` shows the welcome view. -/
theorem unknown_query_keeps_welcome (classes : List IClass) (modules : List IModule)
    (q : String) (devMode : Bool) (hm0 : Option String)
    (hc : classes.find? (fun c => c.name == (jsSplit q '.').headD "") = none)
    (hmn : modules.find? (fun m => m.name == (jsSplit q '.').headD "") = none) :
    resolveQuery classes modules (some q) none none = (none, none)
    ∧ renderContent false none
        (resolveQuery classes modules (some q) none none).1
        { classes := classes, modules := modules } devMode hm0 = .welcome := by
  have h1 : resolveQuery classes modules (some q) none none = (none, none) := by
    simp only [resolveQuery]
    by_cases hg : ¬ (q = "") ∧ classes.length + modules.length > 0
    · rw [if_pos hg]
      simp only [hc, hmn]
    · rw [if_neg hg]
  exact ⟨h1, by rw [h1]; simp [renderContent]⟩

/-- C6 witness: `q=Unknown` against the concrete document leaves the
selection `null` and the welcome view rendered. -/
theorem unknown_query_keeps_welcome_witness :
    resolveQuery [exClassFoo] [exModuleBaz] (some "Unknown") none none = (none, none)
    ∧ renderContent false none
        (resolveQuery [exClassFoo] [exModuleBaz] (some "Unknown") none none).1
        { classes := [exClassFoo], modules := [exModuleBaz] } false none = .welcome :=
  unknown_query_keeps_welcome [exClassFoo] [exModuleBaz] "Unknown" false none
    (by decide) (by decide)

/-- C4: toggling dev/user mode changes only the visibility of protected
members: the non-protected member blocks of the class detail view, and
the non-protected member entries of the outline, are identical lists in
both modes (hence the same set and the same count). -/
theorem devmode_changes_only_protected_visibility (cls : IClass) (hm : Option String) :
    (renderedClassMembers cls true hm).filter (fun m => !m.isProtected)
      = (renderedClassMembers cls false hm).filter (fun m => !m.isProtected)
    ∧ (onThisPageClass cls true).filter (fun e => isMemberEntry e && !isProtectedEntry e)
      = (onThisPageClass cls false).filter
          (fun e => isMemberEntry e && !isProtectedEntry e) :=
  ⟨by rw [renderedClassMembers_public cls true hm,
      renderedClassMembers_public cls false hm],
   by rw [onThisPageClass_public cls true, onThisPageClass_public cls false]⟩

/-- C5: when class names are pairwise distinct and module names are
pairwise distinct, every class name appears exactly once in the sidebar
classes list and every module name exactly once in the sidebar modules
list, and both lists are sorted by the name ordering. -/
theorem sidebar_unique_sorted (d : IData)
    (hc : (d.classes.map (fun c => c.name)).Nodup)
    (hmo : (d.modules.map (fun m => m.name)).Nodup) :
    (∀ c ∈ d.classes, (sidebarClassNames d).count c.name = 1)
    ∧ (sidebarClassNames d).Pairwise (fun a b => nameLe a b = true)
    ∧ (∀ m ∈ d.modules, (sidebarModuleNames d).count m.name = 1)
    ∧ (sidebarModuleNames d).Pairwise (fun a b => nameLe a b = true) := by
  have hpc : (sidebarClassNames d).Perm (d.classes.map (fun c => c.name)) := by
    unfold sidebarClassNames
    exact (sortByKey_perm (fun c => c.name) d.classes).map (fun c => c.name)
  have hpm : (sidebarModuleNames d).Perm (d.modules.map (fun m => m.name)) := by
    unfold sidebarModuleNames
    exact (sortByKey_perm (fun m => m.name) d.modules).map (fun m => m.name)
  refine ⟨?_, ?_, ?_, ?_⟩
  · intro c hcm
    rw [hpc.count_eq]
    exact List.count_eq_one_of_mem hc (List.mem_map_of_mem (fun c => c.name) hcm)
  · unfold sidebarClassNames
    exact List.pairwise_map.mpr (pairwise_sortByKey (fun c => c.name) d.classes)
  · intro m hmm
    rw [hpm.count_eq]
    exact List.count_eq_one_of_mem hmo (List.mem_map_of_mem (fun m => m.name) hmm)
  · unfold sidebarModuleNames
    exact List.pairwise_map.mpr (pairwise_sortByKey (fun m => m.name) d.modules)

/-- C5 witness: the out-of-order concrete document, instantiating the
uniqueness and sortedness statement. -/
theorem sidebar_unique_sorted_witness :
    (∀ c ∈ exSidebarData.classes, (sidebarClassNames exSidebarData).count c.name = 1)
    ∧ (sidebarClassNames exSidebarData).Pairwise (fun a b => nameLe a b = true)
    ∧ (∀ m ∈ exSidebarData.modules,
        (sidebarModuleNames exSidebarData).count m.name = 1)
    ∧ (sidebarModuleNames exSidebarData).Pairwise (fun a b => nameLe a b = true) :=
  sidebar_unique_sorted exSidebarData (by decide) (by decide)

/-- C8 counterexample: with two methods both named `Bar` and `Bar`
highlighted, both blocks are marked highlighted — not only the first, as
the claim states. -/
theorem duplicate_name_both_highlighted :
    ((renderedClassMembers exDupClass false (some "Bar")).filter
      (fun m => m.highlight)).length = 2 := by
  decide

/-- C8 (amended): when members share the highlighted name, the scroll
target resolves to the first rendered block whose id matches
(`getElementById` takes the first match), but every member whose name
equals the highlighted name is marked highlighted, not only the first. -/
theorem duplicate_name_first_scroll_all_highlighted (cls : IClass) (dm : Bool)
    (hmv : String) (pre post : List RenderedMember) (tgt : RenderedMember)
    (hdoc : renderedClassMembers cls dm (some hmv) = pre ++ tgt :: post)
    (hpre : ∀ m ∈ pre, (m.id == memberId hmv) = false)
    (htgt : (tgt.id == memberId hmv) = true) :
    scrollTarget (renderedClassMembers cls dm (some hmv)) hmv = some tgt
    ∧ ∀ m ∈ renderedClassMembers cls dm (some hmv),
        (m.highlight = true ↔ m.name = hmv) := by
  constructor
  · rw [hdoc]
    exact find?_first (fun m => m.id == memberId hmv) pre tgt post hpre htgt
  · intro m hmem
    simp only [renderedClassMembers, List.mem_append, List.mem_map] at hmem
    rcases hmem with ((⟨x, _, rfl⟩ | ⟨x, _, rfl⟩) | ⟨x, _, rfl⟩) | ⟨x, _, rfl⟩ <;>
      · simp only [renderMember, renderProperty, renderEvent]
        rw [some_beq_some_eq]
        exact eq_comm

/-- C8 witness: in the duplicate-name class, the scroll target is the
first `Bar` block and every `Bar` block is highlighted. -/
theorem duplicate_name_first_scroll_all_highlighted_witness :
    scrollTarget (renderedClassMembers exDupClass false (some "Bar")) "Bar"
      = some { id := memberId "Bar", name := "Bar",
               highlight := true, isProtected := false }
    ∧ ∀ m ∈ renderedClassMembers exDupClass false (some "Bar"),
        (m.highlight = true ↔ m.name = "Bar") :=
  duplicate_name_first_scroll_all_highlighted exDupClass false "Bar" []
    [{ id := memberId "Bar", name := "Bar", highlight := true, isProtected := false }]
    { id := memberId "Bar", name := "Bar", highlight := true, isProtected := false }
    (by decide) (by decide) (by decide)

end StdVbaDocs
